import Mathlib

/-!
Verification development for the `amazon-bedrock-workshop` RAG module.

The repository under verification is a notebook that builds a single
`RetrieveAndGenerate` request and prints the response.  Its specification
additionally describes, as the domain's hard core, a local RAG
orchestration engine (Retriever, Context Assembler, Generation
Orchestrator, Citation Reconciler) that the notebook delegates to the
managed service; that engine has no source in the repository, so its
operations are modelled here directly from the specification text.  The
notebook's own request construction is embedded from the notebook source.

Modelling conventions: text is a list of characters; token counts are
character counts (the spec fixes no tokenizer); relevance scores, floats
in the spec, are fixed-point integers in thousandths (the spec's 0.9,
0.7, 0.95 appear as 900, 700, 950).
-/

namespace BedrockRag

/-- Modelled from the spec: text handled by the engine, as a character list. -/
abbrev Text := List Char

/-- Modelled from the spec: the token count of a text.  The spec fixes no
tokenizer, so one token per character. -/
def tokenCount (t : Text) : Nat := t.length

/-- Modelled from the spec (§3): a stored document fragment with embedding and
source metadata, immutable once stored.  Embeddings are fixed-point integer
vectors. -/
structure Chunk where
  id : Nat
  text : Text
  sourceUri : Text
  pageOrOffset : Nat
  embeddingVector : List Int
  ingestedAt : Nat
deriving DecidableEq

/-- Modelled from the spec (§2, §5): the persisted chunk collection; the store
may be unreachable, which retrieval must surface. -/
structure ChunkStore where
  reachable : Bool
  chunks : List Chunk
deriving DecidableEq

/-- Modelled from the spec (§3): a retrieval hit — a weak reference into the
Chunk Store, its relevance score (fixed-point), and its rank. -/
structure RetrievalResult where
  chunkRef : Nat
  score : Int
  rank : Nat
deriving DecidableEq

/-- Modelled from the spec (§7): the retrieval error — the Chunk Store is
unreachable. -/
inductive RetrievalError where
  | retrievalUnavailable
deriving DecidableEq

/-- Resolve a chunk reference to the first chunk in the store with that id. -/
def findChunk (store : List Chunk) (ref : Nat) : Option Chunk :=
  store.find? (fun c => c.id == ref)

/-- Modelled from the spec: vector similarity of a query embedding against a
chunk embedding, as a dot product of fixed-point vectors. -/
def simScore (q v : List Int) : Int :=
  (List.zipWith (· * ·) q v).sum

/-- Modelled from the spec (§4.1): the retrieval ordering on scored chunks —
descending by score, ties broken by most-recent ingestion time. -/
def candLE (x y : Chunk × Int) : Prop :=
  y.2 < x.2 ∨ (x.2 = y.2 ∧ y.1.ingestedAt ≤ x.1.ingestedAt)

instance : DecidableRel candLE := fun x y => by
  unfold candLE
  infer_instance

instance : IsTotal (Chunk × Int) candLE where
  total a b := by
    unfold candLE
    rcases lt_trichotomy a.2 b.2 with h | h | h
    · exact Or.inr (Or.inl h)
    · rcases Nat.le_total a.1.ingestedAt b.1.ingestedAt with hin | hin
      · exact Or.inr (Or.inr ⟨h.symm, hin⟩)
      · exact Or.inl (Or.inr ⟨h, hin⟩)
    · exact Or.inl (Or.inl h)

instance : IsTrans (Chunk × Int) candLE where
  trans a b c hab hbc := by
    unfold candLE at *
    rcases hab with hab | ⟨hab1, hab2⟩
    · rcases hbc with hbc | ⟨hbc1, hbc2⟩
      · exact Or.inl (lt_trans hbc hab)
      · exact Or.inl (hbc1 ▸ hab)
    · rcases hbc with hbc | ⟨hbc1, hbc2⟩
      · exact Or.inl (hab1 ▸ hbc)
      · exact Or.inr ⟨hab1.trans hbc1, le_trans hbc2 hab2⟩

/-- Attach ranks to a sorted scored-candidate list, producing retrieval
results in order, ranks counting up from the given start. -/
def withRanks : Nat → List (Chunk × Int) → List RetrievalResult
  | _, [] => []
  | i, p :: rest => ⟨p.1.id, p.2, i⟩ :: withRanks (i + 1) rest

/-- Modelled from the spec (§4.1): `retrieve(queryEmbedding, k, filters)` —
candidates passing the filters are scored, those clearing the minimum-score
threshold are sorted descending by score (ties by most-recent ingestion) and
the top k are returned; fails with `RetrievalUnavailable` exactly when the
store is unreachable; a cleared-by-nothing query yields the empty sequence. -/
def retrieve (store : ChunkStore) (queryEmbedding : List Int) (k : Nat)
    (filters : Chunk → Bool) (minScore : Int) :
    Except RetrievalError (List RetrievalResult) :=
  if store.reachable then
    let cands := store.chunks.filter filters
    let scored := cands.map (fun c => (c, simScore queryEmbedding c.embeddingVector))
    let cleared := scored.filter (fun p => minScore ≤ p.2)
    let sorted := List.insertionSort candLE cleared
    .ok (withRanks 0 (sorted.take k))
  else
    .error .retrievalUnavailable

/-- Modelled from the spec (§4.1): retrieval as a state transformer on the
store, making its read-only contract explicit — the store component of the
result is the input store. -/
def retrieveSt (store : ChunkStore) (queryEmbedding : List Int) (k : Nat)
    (filters : Chunk → Bool) (minScore : Int) :
    Except RetrievalError (List RetrievalResult) × ChunkStore :=
  (retrieve store queryEmbedding k filters minScore, store)

/-- Modelled from the spec (§3): one entry of an assembled context — the
chunk reference, its (possibly truncated) text, and a truncation mark. -/
structure CtxEntry where
  chunkRef : Nat
  text : Text
  truncated : Bool
deriving DecidableEq

/-- Modelled from the spec (§3): an assembled context, an ordered sequence of
retrieval-result references plus their (possibly truncated) text. -/
structure AssembledContext where
  entries : List CtxEntry
deriving DecidableEq

/-- Modelled from the spec (§4.2): the assembly error — token budget below
the configured minimum viable size. -/
inductive AssembleError where
  | contextOverflow
deriving DecidableEq

/-- Resolve retrieval results against the store, pairing each result with its
chunk; unresolvable references are dropped. -/
def resolveResults (store : List Chunk) (results : List RetrievalResult) :
    List (RetrievalResult × Chunk) :=
  results.filterMap (fun r => (findChunk store r.chunkRef).map (fun c => (r, c)))

/-- Two chunks are duplicates for assembly when they share sourceUri and
pageOrOffset. -/
def sameSource (c d : Chunk) : Bool :=
  c.sourceUri == d.sourceUri && c.pageOrOffset == d.pageOrOffset

/-- Among a duplicate group, keep the higher-scored instance. -/
def pickBest (p : RetrievalResult × Chunk) (dups : List (RetrievalResult × Chunk)) :
    RetrievalResult × Chunk :=
  dups.foldl (fun best q => if best.1.score < q.1.score then q else best) p

/-- Deduplicate by sourceUri+pageOrOffset, keeping for each group the
higher-scored instance at the position of the group's first occurrence.
Fuel-driven recursion; the fuel is the list length. -/
def dedupGo : Nat → List (RetrievalResult × Chunk) → List (RetrievalResult × Chunk)
  | _, [] => []
  | 0, _ :: _ => []
  | fuel + 1, p :: rest =>
      pickBest p (rest.filter (fun q => sameSource p.2 q.2)) ::
        dedupGo fuel (rest.filter (fun q => !(sameSource p.2 q.2)))

/-- Modelled from the spec (§4.2): deduplicate chunks with identical
sourceUri+pageOrOffset, keeping the higher-scored instance. -/
def dedupBySource (l : List (RetrievalResult × Chunk)) :
    List (RetrievalResult × Chunk) :=
  dedupGo l.length l

/-- The token cost of including a resolved result in full. -/
def entryCost (p : RetrievalResult × Chunk) : Nat := tokenCount p.2.text

/-- Modelled from the spec (§4.2): the greedy inclusion walk — iterate in rank
order, include each chunk's text in full while it fits the budget; a chunk
alone exceeding the whole budget is truncated to the budget and marked
truncated; otherwise stop as soon as adding the next chunk would exceed the
budget. -/
def greedyGo (budget : Nat) (used : Nat) :
    List (RetrievalResult × Chunk) → List CtxEntry
  | [] => []
  | p :: rest =>
      let n := entryCost p
      if used + n ≤ budget then
        ⟨p.1.chunkRef, p.2.text, false⟩ :: greedyGo budget (used + n) rest
      else if budget < n then
        [⟨p.1.chunkRef, p.2.text.take (budget - used), true⟩]
      else
        []

/-- Modelled from the spec (§4.2): `assemble(results, tokenBudget)` — fails
with `ContextOverflow` exactly when the budget is below the configured
minimum viable size, else resolves, deduplicates, and greedily packs the
results into the budget. -/
def assemble (store : List Chunk) (results : List RetrievalResult)
    (tokenBudget minViable : Nat) : Except AssembleError AssembledContext :=
  if tokenBudget < minViable then
    .error .contextOverflow
  else
    .ok ⟨greedyGo tokenBudget 0 (dedupBySource (resolveResults store results))⟩

/-- Total token count of an assembled context. -/
def contextTokens (ctx : AssembledContext) : Nat :=
  (ctx.entries.map (fun e => tokenCount e.text)).sum

/-- Byte serialization of an assembled context, for the determinism
property: each entry contributes its reference, its text's code points and
its truncation mark. -/
def contextBytes (ctx : AssembledContext) : List Nat :=
  (ctx.entries.map
    (fun e => e.chunkRef :: (e.text.map Char.toNat ++ [if e.truncated then 1 else 0]))).flatten

/-- The chunk references present in an assembled context. -/
def ctxChunkRefs (ctx : AssembledContext) : List Nat :=
  ctx.entries.map (fun e => e.chunkRef)

/-- Modelled from the spec (§4.4): one segment of the backend's attribution
signal — a span length together with the source identifiers the backend
attributes that span to.  The no-signal fallback (sentence-boundary
splitting) is abstracted as the segment list a splitter produced. -/
structure AttrSeg where
  len : Nat
  refs : List Nat
deriving DecidableEq

/-- Modelled from the spec (§3): a generated span — a text fragment with the
set of chunk references grounding it; a span with no grounding chunks is
explicitly marked ungrounded. -/
structure GeneratedSpan where
  text : Text
  chunkRefs : List Nat
  ungrounded : Bool
deriving DecidableEq

/-- Splitting walk of the reconciler: consume the raw text segment by
segment, keeping only references present in the context; any trailing text
not covered by the signal becomes a final ungrounded span so the answer text
is always fully reconstructed. -/
def reconcileGo (ctxRefs : List Nat) : Text → List AttrSeg → List GeneratedSpan
  | rest, [] => if rest.isEmpty then [] else [⟨rest, [], true⟩]
  | rest, seg :: segs =>
      let resolved := seg.refs.filter (fun r => ctxRefs.contains r)
      ⟨rest.take seg.len, resolved, resolved.isEmpty⟩ ::
        reconcileGo ctxRefs (rest.drop seg.len) segs

/-- Modelled from the spec (§4.4): `reconcile(rawText, attributionSignal,
contextUsed)` — split the raw text at the signal's boundaries and resolve
each segment's references against the context, downgrading any reference
absent from the context (a span left with no in-context reference is marked
ungrounded rather than trusted). -/
def reconcile (rawText : Text) (signal : List AttrSeg)
    (contextUsed : AssembledContext) : List GeneratedSpan :=
  reconcileGo (ctxChunkRefs contextUsed) rawText signal

/-- Modelled from the spec (§3): an answer — its text plus its ordered
generated spans. -/
structure Answer where
  text : Text
  spans : List GeneratedSpan
deriving DecidableEq

/-- Concatenation of a span list's text fragments, in order. -/
def joinSpans (spans : List GeneratedSpan) : Text :=
  (spans.map (fun s => s.text)).flatten

/-- Modelled from the spec (§4.4): build the turn's answer from the raw
backend text, its attribution signal, and the context used. -/
def mkAnswer (rawText : Text) (signal : List AttrSeg)
    (contextUsed : AssembledContext) : Answer :=
  ⟨rawText, reconcile rawText signal contextUsed⟩

/-- Modelled from the spec (§4.3, §6): one reply of the external generation
backend — success with text and attribution signal, a transient failure
(timeout or rate-limit), or a content-policy rejection. -/
inductive BackendReply where
  | success (text : Text) (signal : List AttrSeg)
  | transient
  | policyRejection
deriving DecidableEq

/-- Modelled from the spec (§4.3, §7): the outcome of the orchestrated
backend call — success, `GenerationFailed` carrying the retry count and the
backoff delays slept, or `GenerationRejected` carrying the attempt count. -/
inductive GenOutcome where
  | ok (text : Text) (signal : List AttrSeg) (attempts : Nat) (delays : List Nat)
  | generationFailed (retryCount : Nat) (delays : List Nat)
  | generationRejected (attempts : Nat)
deriving DecidableEq

/-- Modelled from the spec (§4.3): the exponential backoff delay before the
retry following attempt number `attempt`. -/
def backoffDelay (base attempt : Nat) : Nat := base * 2 ^ attempt

/-- Retry walk of the orchestrator: the backend is a map from attempt index
to reply; transient failures are retried while retries remain, recording the
backoff delay slept before each retry; a policy rejection is surfaced at
once. -/
def generateGo (backend : Nat → BackendReply) (base : Nat) :
    Nat → Nat → List Nat → GenOutcome
  | 0, attempt, delays =>
      match backend attempt with
      | .success t s => .ok t s (attempt + 1) delays
      | .policyRejection => .generationRejected (attempt + 1)
      | .transient => .generationFailed attempt delays
  | r + 1, attempt, delays =>
      match backend attempt with
      | .success t s => .ok t s (attempt + 1) delays
      | .policyRejection => .generationRejected (attempt + 1)
      | .transient =>
          generateGo backend base r (attempt + 1)
            (delays ++ [backoffDelay base attempt])

/-- Modelled from the spec (§4.3): the orchestrated backend call — up to
`maxRetries` retries on transient failure with exponential backoff from
`base`, `GenerationFailed` only after exhausting them, `GenerationRejected`
immediately on a policy rejection, never retried. -/
def generate (backend : Nat → BackendReply) (maxRetries base : Nat) : GenOutcome :=
  generateGo backend base maxRetries 0 []

/-- Modelled from the spec (§3): a user query. -/
structure Query where
  text : Text
deriving DecidableEq

/-- Modelled from the spec (§3): the session's ordered past (Query, Answer)
pairs. -/
abbrev ConversationState := List (Query × Answer)

/-- Modelled from the spec (§5): where, if anywhere, the turn is cancelled —
cooperative cancellation or timeout hitting one of the suspension points
before generation completes. -/
inductive CancelPoint where
  | noCancel
  | duringRetrieval
  | duringAssembly
  | duringGeneration
deriving DecidableEq

/-- Modelled from the spec (§4, §7): how a turn ends. -/
inductive TurnOutcome where
  | answered (a : Answer)
  | cancelled
  | failedRetrievalUnavailable
  | failedContextOverflow
  | failedGeneration (retryCount : Nat)
  | rejectedGeneration
deriving DecidableEq

/-- Modelled from the spec (§4, §5): one conversation turn —
retrieve, assemble, generate, reconcile — threading the session's
ConversationState; a turn cancelled before generation completes, and any
failed turn, commits nothing; only a successful turn appends its
(query, answer) pair. -/
def runTurn (store : ChunkStore) (q : Query) (queryEmbedding : List Int)
    (k : Nat) (filters : Chunk → Bool) (minScore : Int)
    (tokenBudget minViable : Nat) (backend : Nat → BackendReply)
    (maxRetries base : Nat) (cstate : ConversationState) (cancel : CancelPoint) :
    TurnOutcome × ConversationState :=
  if cancel = .duringRetrieval then (.cancelled, cstate)
  else
    match retrieve store queryEmbedding k filters minScore with
    | .error _ => (.failedRetrievalUnavailable, cstate)
    | .ok results =>
        if cancel = .duringAssembly then (.cancelled, cstate)
        else
          match assemble store.chunks results tokenBudget minViable with
          | .error _ => (.failedContextOverflow, cstate)
          | .ok ctx =>
              if cancel = .duringGeneration then (.cancelled, cstate)
              else
                match generate backend maxRetries base with
                | .ok t sig _ _ =>
                    let ans := mkAnswer t sig ctx
                    (.answered ans, cstate ++ [(q, ans)])
                | .generationFailed rc _ => (.failedGeneration rc, cstate)
                | .generationRejected _ => (.rejectedGeneration, cstate)

/-- JSON-shaped request values, as needed to embed the notebook's
`retrieve_and_generate` call: string leaves and key-value objects. -/
inductive Json where
  | str : String → Json
  | obj : List (String × Json) → Json

mutual

/-- All keys appearing anywhere in a JSON value, outer-to-inner. -/
def keysOf : Json → List String
  | .str _ => []
  | .obj fields => keysOfFields fields

/-- All keys appearing in a JSON field list, outer-to-inner. -/
def keysOfFields : List (String × Json) → List String
  | [] => []
  | (k, v) :: rest => k :: (keysOf v ++ keysOfFields rest)

end

/-- The request payload the notebook builds for
`bedrock_agent_client.retrieve_and_generate`: the user query under
`input.text`, and a `KNOWLEDGE_BASE`-typed configuration naming the
knowledge base id and the model ARN — nothing else. -/
def retrieveAndGenerateRequest (userQuery bedrockKbId modelArn : String) : Json :=
  .obj
    [("input", .obj [("text", .str userQuery)]),
     ("retrieveAndGenerateConfiguration", .obj
        [("type", .str "KNOWLEDGE_BASE"),
         ("knowledgeBaseConfiguration", .obj
            [("knowledgeBaseId", .str bedrockKbId),
             ("modelArn", .str modelArn)])])]

/-- The length of a successful retrieval's result sequence. -/
def okLength : Except RetrievalError (List RetrievalResult) → Option Nat
  | .ok l => some l.length
  | .error _ => none

/-- Chunk A of the spec's worked example, scoring 0.9 (fixed-point 900)
against the example query. -/
def chunkA : Chunk := ⟨1, [], [], 0, [900], 10⟩

/-- Chunk B of the spec's worked example, scoring 0.7 (fixed-point 700). -/
def chunkB : Chunk := ⟨2, [], [], 1, [700], 20⟩

/-- Chunk C of the spec's worked example, scoring 0.95 (fixed-point 950). -/
def chunkC : Chunk := ⟨3, [], [], 2, [950], 30⟩

/-- The spec's worked-example store holding chunks A, B, C. -/
def abcStore : ChunkStore := ⟨true, [chunkA, chunkB, chunkC]⟩

/-- A reachable store with five matching chunks, for the k=3 length
example. -/
def fiveStore : ChunkStore :=
  ⟨true,
    [⟨1, [], [], 0, [10], 1⟩, ⟨2, [], [], 1, [20], 2⟩, ⟨3, [], [], 2, [30], 3⟩,
     ⟨4, [], [], 3, [40], 4⟩, ⟨5, [], [], 4, [50], 5⟩]⟩

/-! Theorems.  Helper lemmas come first; each claim is settled by a single
named theorem, with a closed witness where the theorem carries
hypotheses. -/

lemma reconcileGo_join (ctxRefs : List Nat) :
    ∀ (segs : List AttrSeg) (rest : Text),
      joinSpans (reconcileGo ctxRefs rest segs) = rest := by
  intro segs
  induction segs with
  | nil =>
      intro rest
      by_cases h : rest.isEmpty
      · simp [reconcileGo, h, joinSpans, List.isEmpty_iff.mp h]
      · simp [reconcileGo, h, joinSpans]
  | cons seg segs ih =>
      intro rest
      simp [reconcileGo, joinSpans] at *
      rw [ih]
      exact List.take_append_drop seg.len rest

lemma reconcileGo_mem (ctxRefs : List Nat) :
    ∀ (segs : List AttrSeg) (rest : Text) (s : GeneratedSpan),
      s ∈ reconcileGo ctxRefs rest segs →
      (s.ungrounded = true ↔ s.chunkRefs = []) ∧ ∀ r ∈ s.chunkRefs, r ∈ ctxRefs := by
  intro segs
  induction segs with
  | nil =>
      intro rest s hs
      by_cases h : rest.isEmpty <;> simp [reconcileGo, h] at hs
      subst hs
      simp
  | cons seg segs ih =>
      intro rest s hs
      simp only [reconcileGo, List.mem_cons] at hs
      rcases hs with hs | hs
      · subst hs
        constructor
        · simp [List.isEmpty_iff]
        · intro r hr
          have := List.of_mem_filter hr
          simpa using this
      · exact ih _ s hs

/-- Claim C2: for every answer built by the reconciler, concatenating its
spans' text fragments in order yields exactly the answer text, and every
span's ungrounded mark is exactly the emptiness of its grounding chunk
reference set — ungrounded spans are marked, never omitted. -/
theorem answer_span_reconstruction :
    ∀ (rawText : Text) (signal : List AttrSeg) (ctx : AssembledContext),
      joinSpans (mkAnswer rawText signal ctx).spans = (mkAnswer rawText signal ctx).text ∧
      ∀ s ∈ (mkAnswer rawText signal ctx).spans,
        (s.ungrounded = true ↔ s.chunkRefs = []) := by
  intro rawText signal ctx
  refine ⟨reconcileGo_join _ _ _, ?_⟩
  intro s hs
  exact (reconcileGo_mem _ _ _ _ hs).1

/-- Claim C1: every chunk reference carried by a span of a reconciled answer
is present in the assembled context used for that turn, and a signal segment
all of whose references are absent from that context yields a span
downgraded to ungrounded with no references, rather than an out-of-context
citation. -/
theorem reconciler_citations_in_context :
    ∀ (rawText : Text) (signal : List AttrSeg) (ctx : AssembledContext),
      (∀ s ∈ (mkAnswer rawText signal ctx).spans,
        ∀ r ∈ s.chunkRefs, r ∈ ctxChunkRefs ctx) ∧
      (∀ (seg : AttrSeg) (segs : List AttrSeg) (rest : Text),
        (∀ r ∈ seg.refs, r ∉ ctxChunkRefs ctx) →
        reconcileGo (ctxChunkRefs ctx) rest (seg :: segs) =
          ⟨rest.take seg.len, [], true⟩ ::
            reconcileGo (ctxChunkRefs ctx) (rest.drop seg.len) segs) := by
  intro rawText signal ctx
  constructor
  · intro s hs
    exact (reconcileGo_mem _ _ _ _ hs).2
  · intro seg segs rest habsent
    have hfil : seg.refs.filter (fun r => (ctxChunkRefs ctx).contains r) = [] := by
      rw [List.filter_eq_nil_iff]
      intro r hr
      simpa using habsent r hr
    simp only [reconcileGo, hfil, List.isEmpty_nil]

theorem reconciler_citations_in_context_witness :
    reconcileGo (ctxChunkRefs ⟨[⟨5, [], false⟩]⟩) [] [⟨1, [9]⟩] =
      ⟨List.take 1 [], [], true⟩ :: reconcileGo (ctxChunkRefs ⟨[⟨5, [], false⟩]⟩) (List.drop 1 []) [] :=
  (reconciler_citations_in_context [] [⟨1, [9]⟩] ⟨[⟨5, [], false⟩]⟩).2
    ⟨1, [9]⟩ [] [] (by decide)

lemma generateGo_all_transient (backend : Nat → BackendReply) (base : Nat)
    (h : ∀ i, backend i = .transient) :
    ∀ (r attempt : Nat) (delays : List Nat),
      generateGo backend base r attempt delays =
        .generationFailed (attempt + r)
          (delays ++ List.map (backoffDelay base) (List.range' attempt r)) := by
  intro r
  induction r with
  | zero =>
      intro attempt delays
      simp [generateGo, h attempt]
  | succ r ih =>
      intro attempt delays
      rw [generateGo, h attempt]
      rw [ih (attempt + 1) (delays ++ [backoffDelay base attempt])]
      rw [List.range'_succ]
      simp [Nat.add_assoc, Nat.add_comm 1 r]

/-- Claim C3: the generation orchestrator retries the backend only on
transient failure, with exponential backoff, surfacing `GenerationFailed`
with its retry count only after exhausting the configured limit; a
content-policy rejection is surfaced immediately as `GenerationRejected`
after a single attempt, never retried. -/
theorem orchestrator_retry_policy :
    (∀ (backend : Nat → BackendReply) (maxRetries base : Nat),
      (∀ i, backend i = .transient) →
      generate backend maxRetries base =
        .generationFailed maxRetries
          (List.map (backoffDelay base) (List.range maxRetries))) ∧
    (∀ (backend : Nat → BackendReply) (maxRetries base : Nat),
      backend 0 = .policyRejection →
      generate backend maxRetries base = .generationRejected 1) := by
  constructor
  · intro backend maxRetries base h
    rw [generate, generateGo_all_transient backend base h maxRetries 0 []]
    rw [List.range_eq_range']
    simp
  · intro backend maxRetries base h
    cases maxRetries <;> simp [generate, generateGo, h]

theorem orchestrator_retry_policy_witness :
    generate (fun _ => .transient) 2 1 =
      .generationFailed 2 (List.map (backoffDelay 1) (List.range 2)) ∧
    generate (fun _ => .policyRejection) 5 1 = .generationRejected 1 :=
  ⟨orchestrator_retry_policy.1 (fun _ => .transient) 2 1 (fun _ => rfl),
   orchestrator_retry_policy.2 (fun _ => .policyRejection) 5 1 rfl⟩

lemma greedyGo_tokens_le (budget : Nat) :
    ∀ (l : List (RetrievalResult × Chunk)) (used : Nat), used ≤ budget →
      ((greedyGo budget used l).map (fun e => tokenCount e.text)).sum ≤ budget - used := by
  intro l
  induction l with
  | nil =>
      intro used _
      simp [greedyGo]
  | cons p rest ih =>
      intro used hu
      by_cases h1 : used + entryCost p ≤ budget
      · have hrec := ih (used + entryCost p) h1
        simp only [greedyGo, h1, if_pos, List.map_cons, List.sum_cons]
        have hcost : tokenCount p.2.text = entryCost p := rfl
        omega
      · by_cases h2 : budget < entryCost p
        · simp only [greedyGo, h1, h2, if_neg, if_pos, not_false_iff, List.map_cons,
            List.map_nil, List.sum_cons, List.sum_nil]
          simp [tokenCount]
        · simp [greedyGo, h1, h2]

/-- Claim C4: the assembler never produces a context exceeding the token
budget, and it fails with `ContextOverflow` (producing no context) exactly
when the budget is below the configured minimum viable size. -/
theorem assembler_budget_and_overflow :
    ∀ (store : List Chunk) (results : List RetrievalResult) (tokenBudget minViable : Nat),
      (∀ ctx, assemble store results tokenBudget minViable = .ok ctx →
        contextTokens ctx ≤ tokenBudget) ∧
      (assemble store results tokenBudget minViable = .error .contextOverflow ↔
        tokenBudget < minViable) := by
  intro store results tokenBudget minViable
  by_cases h : tokenBudget < minViable
  · refine ⟨?_, by simp [assemble, h]⟩
    intro ctx hctx
    simp [assemble, h] at hctx
  · refine ⟨?_, by simp [assemble, h]⟩
    intro ctx hctx
    simp only [assemble, h, if_neg, not_false_iff, Except.ok.injEq] at hctx
    subst hctx
    have := greedyGo_tokens_le tokenBudget
      (dedupBySource (resolveResults store results)) 0 (Nat.zero_le _)
    simpa [contextTokens] using this

theorem assembler_budget_and_overflow_witness :
    contextTokens ⟨[]⟩ ≤ 5 :=
  (assembler_budget_and_overflow [] [] 5 0).1 ⟨[]⟩ rfl

/-- Claim C5: the greedy packing walk includes chunks in rank order in full
while the running total fits the budget, stops as soon as the next chunk
would exceed it, truncates to the budget (and marks truncated) a chunk that
alone exceeds the whole budget, duplicate sourceUri+pageOrOffset pairs keep
the higher-scored instance, and assembly is exactly resolution, then
deduplication, then the greedy walk. -/
theorem assembler_algorithm :
    (∀ (budget used : Nat) (l : List (RetrievalResult × Chunk)),
      used + (l.map entryCost).sum ≤ budget →
      greedyGo budget used l = l.map (fun p => ⟨p.1.chunkRef, p.2.text, false⟩)) ∧
    (∀ (budget used : Nat) (p : RetrievalResult × Chunk) (l : List (RetrievalResult × Chunk)),
      budget < used + entryCost p → entryCost p ≤ budget →
      greedyGo budget used (p :: l) = []) ∧
    (∀ (budget used : Nat) (p : RetrievalResult × Chunk) (l : List (RetrievalResult × Chunk)),
      budget < entryCost p →
      greedyGo budget used (p :: l) = [⟨p.1.chunkRef, p.2.text.take (budget - used), true⟩]) ∧
    (∀ (p q : RetrievalResult × Chunk), sameSource p.2 q.2 = true →
      dedupBySource [p, q] = [if p.1.score < q.1.score then q else p]) ∧
    (∀ (store : List Chunk) (results : List RetrievalResult) (budget minViable : Nat),
      minViable ≤ budget →
      assemble store results budget minViable =
        .ok ⟨greedyGo budget 0 (dedupBySource (resolveResults store results))⟩) := by
  refine ⟨?_, ?_, ?_, ?_, ?_⟩
  · intro budget used l
    induction l generalizing used with
    | nil => intro _; simp [greedyGo]
    | cons p rest ih =>
        intro h
        simp only [List.map_cons, List.sum_cons] at h
        have h1 : used + entryCost p ≤ budget := by omega
        simp only [greedyGo, h1, if_pos, List.map_cons]
        rw [ih (used + entryCost p) (by omega)]
  · intro budget used p l h1 h2
    have hn : ¬(used + entryCost p ≤ budget) := by omega
    have hn2 : ¬(budget < entryCost p) := by omega
    simp [greedyGo, hn, hn2]
  · intro budget used p l h
    have hn : ¬(used + entryCost p ≤ budget) := by omega
    simp [greedyGo, hn, h]
  · intro p q h
    simp [dedupBySource, dedupGo, pickBest, h]
  · intro store results budget minViable h
    simp only [assemble]
    rw [if_neg (by omega)]

theorem assembler_algorithm_witness :
    greedyGo 10 0 [(⟨1, 900, 0⟩, ⟨1, ['a'], [], 0, [], 0⟩)] =
      [⟨1, ['a'], false⟩] ∧
    greedyGo 1 1 [(⟨1, 900, 0⟩, ⟨1, ['a'], [], 0, [], 0⟩)] = [] ∧
    greedyGo 0 0 [(⟨1, 900, 0⟩, ⟨1, ['a'], [], 0, [], 0⟩)] =
      [⟨1, List.take 0 ['a'], true⟩] ∧
    dedupBySource [(⟨1, 900, 0⟩, ⟨1, ['a'], [], 0, [], 0⟩),
                   (⟨2, 950, 0⟩, ⟨2, ['b'], [], 0, [], 1⟩)] =
      [if (900 : Int) < 950 then (⟨2, 950, 0⟩, ⟨2, ['b'], [], 0, [], 1⟩)
       else (⟨1, 900, 0⟩, ⟨1, ['a'], [], 0, [], 0⟩)] ∧
    assemble [] [] 5 0 = .ok ⟨greedyGo 5 0 (dedupBySource (resolveResults [] []))⟩ :=
  ⟨assembler_algorithm.1 10 0 _ (by decide),
   assembler_algorithm.2.1 1 1 _ [] (by decide) (by decide),
   assembler_algorithm.2.2.1 0 0 _ [] (by decide),
   assembler_algorithm.2.2.2.1 _ _ (by decide),
   assembler_algorithm.2.2.2.2 [] [] 5 0 (by decide)⟩

/-- Claim C8: assembly is deterministic — two runs on identical inputs
(same store, results, budget, and minimum viable size) return the same
value, and any contexts they produce serialize to identical bytes; the
model takes no randomness or clock input. -/
theorem assemble_deterministic :
    ∀ (store store2 : List Chunk) (results results2 : List RetrievalResult)
      (budget budget2 minViable minViable2 : Nat),
      store = store2 → results = results2 → budget = budget2 → minViable = minViable2 →
      assemble store results budget minViable = assemble store2 results2 budget2 minViable2 ∧
      ∀ ctx ctx2, assemble store results budget minViable = .ok ctx →
        assemble store2 results2 budget2 minViable2 = .ok ctx2 →
        contextBytes ctx = contextBytes ctx2 := by
  intro store store2 results results2 budget budget2 minViable minViable2 h1 h2 h3 h4
  subst h1; subst h2; subst h3; subst h4
  refine ⟨rfl, ?_⟩
  intro ctx ctx2 ha hb
  rw [ha] at hb
  injection hb with hb
  rw [hb]

theorem assemble_deterministic_witness :
    contextBytes ⟨[]⟩ = contextBytes ⟨[]⟩ :=
  (assemble_deterministic [] [] [] [] 5 5 0 0 rfl rfl rfl rfl).2 ⟨[]⟩ ⟨[]⟩ rfl rfl

/-- Claim C9: a turn cancelled at any suspension point before generation
completes returns the session's ConversationState unmodified — same value,
same length, no partial (query, answer) entry committed. -/
theorem cancellation_preserves_state :
    ∀ (store : ChunkStore) (q : Query) (queryEmbedding : List Int) (k : Nat)
      (filters : Chunk → Bool) (minScore : Int) (tokenBudget minViable : Nat)
      (backend : Nat → BackendReply) (maxRetries base : Nat)
      (cstate : ConversationState) (cancel : CancelPoint),
      cancel ≠ .noCancel →
      (runTurn store q queryEmbedding k filters minScore tokenBudget minViable
          backend maxRetries base cstate cancel).2 = cstate ∧
      (runTurn store q queryEmbedding k filters minScore tokenBudget minViable
          backend maxRetries base cstate cancel).2.length = cstate.length := by
  intro store q qe k f ms tb mv backend mr b cstate cancel h
  have hstate : (runTurn store q qe k f ms tb mv backend mr b cstate cancel).2 = cstate := by
    cases cancel with
    | noCancel => exact absurd rfl h
    | duringRetrieval => simp [runTurn]
    | duringAssembly =>
        cases hr : retrieve store qe k f ms with
        | error e => simp [runTurn, hr]
        | ok results => simp [runTurn, hr]
    | duringGeneration =>
        cases hr : retrieve store qe k f ms with
        | error e => simp [runTurn, hr]
        | ok results =>
            cases ha : assemble store.chunks results tb mv with
            | error e => simp [runTurn, hr, ha]
            | ok ctx => simp [runTurn, hr, ha]
  exact ⟨hstate, by rw [hstate]⟩

theorem cancellation_preserves_state_witness :
    (runTurn ⟨true, []⟩ ⟨[]⟩ [] 1 (fun _ => true) 0 10 0 (fun _ => .transient)
        2 1 [] .duringGeneration).2 = ([] : ConversationState) :=
  (cancellation_preserves_state ⟨true, []⟩ ⟨[]⟩ [] 1 (fun _ => true) 0 10 0
    (fun _ => .transient) 2 1 [] .duringGeneration (by decide)).1

/-- Claim C7: retrieval fails with `RetrievalUnavailable` exactly when the
store is unreachable; a reachable store where no filtered chunk clears the
minimum-score threshold yields the empty sequence, not an error; and the
state-transformer form of retrieval returns the store unchanged
(read-only). -/
theorem retriever_error_and_readonly :
    ∀ (store : ChunkStore) (queryEmbedding : List Int) (k : Nat)
      (filters : Chunk → Bool) (minScore : Int),
      (retrieve store queryEmbedding k filters minScore = .error .retrievalUnavailable ↔
        store.reachable = false) ∧
      (store.reachable = true →
        (∀ c ∈ store.chunks, filters c = true →
          simScore queryEmbedding c.embeddingVector < minScore) →
        retrieve store queryEmbedding k filters minScore = .ok []) ∧
      (retrieveSt store queryEmbedding k filters minScore).2 = store := by
  intro store qe k f ms
  refine ⟨?_, ?_, rfl⟩
  · cases hs : store.reachable <;> simp [retrieve, hs]
  · intro hreach hbelow
    have hfil :
        ((store.chunks.filter f).map
          (fun c => (c, simScore qe c.embeddingVector))).filter
            (fun p => decide (ms ≤ p.2)) = [] := by
      rw [List.filter_eq_nil_iff]
      intro p hp
      rcases List.mem_map.mp hp with ⟨c, hc, rfl⟩
      have h1 := List.mem_of_mem_filter hc
      have h2 := List.of_mem_filter hc
      simpa using hbelow c h1 h2
    simp [retrieve, hreach, hfil, List.insertionSort, withRanks]

theorem retriever_error_and_readonly_witness :
    retrieve ⟨true, [⟨1, [], [], 0, [1], 0⟩]⟩ [1] 3 (fun _ => true) 5 = .ok [] :=
  (retriever_error_and_readonly ⟨true, [⟨1, [], [], 0, [1], 0⟩]⟩ [1] 3
    (fun _ => true) 5).2.1 rfl (by decide)

lemma withRanks_length : ∀ (i : Nat) (l : List (Chunk × Int)),
    (withRanks i l).length = l.length := by
  intro i l
  induction l generalizing i with
  | nil => simp [withRanks]
  | cons p rest ih => simp [withRanks, ih]

lemma mem_withRanks : ∀ (i : Nat) (l : List (Chunk × Int)) (x : RetrievalResult),
    x ∈ withRanks i l → ∃ (j : Nat) (p : Chunk × Int), p ∈ l ∧ x = ⟨p.1.id, p.2, j⟩ := by
  intro i l
  induction l generalizing i with
  | nil =>
      intro x hx
      simp [withRanks] at hx
  | cons p rest ih =>
      intro x hx
      simp only [withRanks, List.mem_cons] at hx
      rcases hx with hx | hx
      · exact ⟨i, p, List.mem_cons_self p rest, hx⟩
      · rcases ih (i + 1) x hx with ⟨j, q, hq, hxq⟩
        exact ⟨j, q, List.mem_cons_of_mem p hq, hxq⟩

lemma withRanks_pairwise {R : Chunk × Int → Chunk × Int → Prop}
    {S : RetrievalResult → RetrievalResult → Prop}
    (hRS : ∀ (i j : Nat) (p q : Chunk × Int), R p q →
      S ⟨p.1.id, p.2, i⟩ ⟨q.1.id, q.2, j⟩) :
    ∀ (i : Nat) (l : List (Chunk × Int)), List.Pairwise R l →
      List.Pairwise S (withRanks i l) := by
  intro i l
  induction l generalizing i with
  | nil =>
      intro _
      simp [withRanks]
  | cons p rest ih =>
      intro hl
      rcases List.pairwise_cons.mp hl with ⟨hp, hrest⟩
      simp only [withRanks]
      refine List.Pairwise.cons ?_ (ih (i + 1) hrest)
      intro y hy
      rcases mem_withRanks (i + 1) rest y hy with ⟨j, q, hq, rfl⟩
      exact hRS i j p q (hp q hq)

lemma findChunk_self : ∀ (store : List Chunk) (c : Chunk),
    (store.map Chunk.id).Nodup → c ∈ store → findChunk store c.id = some c := by
  intro store
  induction store with
  | nil =>
      intro c _ hc
      simp at hc
  | cons d rest ih =>
      intro c hnd hc
      rw [List.map_cons, List.nodup_cons] at hnd
      rcases List.mem_cons.mp hc with rfl | hc
      · simp [findChunk]
      · have hne : ¬(d.id == c.id) = true := by
          intro h
          exact hnd.1 (by
            rw [show d.id = c.id from by simpa using h]
            exact List.mem_map_of_mem Chunk.id hc)
        rw [findChunk, List.find?_cons_of_neg (p := fun x => x.id == c.id) rest hne]
        exact ih c hnd.2 hc

/-- Claim C6: a successful retrieval (over a store with distinct chunk ids)
returns at most k results, sorted descending by score with ties broken by
most-recent ingestion time of the referenced chunks; with k=3 and five
matching chunks exactly 3 results come back; and on the store holding
A(900), B(700), C(950) with k=2 the result is [C, A]. -/
theorem retriever_contract :
    (∀ (store : ChunkStore) (queryEmbedding : List Int) (k : Nat)
      (filters : Chunk → Bool) (minScore : Int) (rs : List RetrievalResult),
      (store.chunks.map Chunk.id).Nodup →
      retrieve store queryEmbedding k filters minScore = .ok rs →
      rs.length ≤ k ∧
      List.Pairwise (fun a b : RetrievalResult => b.score ≤ a.score) rs ∧
      List.Pairwise (fun a b : RetrievalResult => a.score = b.score →
        ∀ ca cb, findChunk store.chunks a.chunkRef = some ca →
          findChunk store.chunks b.chunkRef = some cb →
          cb.ingestedAt ≤ ca.ingestedAt) rs) ∧
    okLength (retrieve fiveStore [1] 3 (fun _ => true) 0) = some 3 ∧
    retrieve abcStore [1] 2 (fun _ => true) 0 = .ok [⟨3, 950, 0⟩, ⟨1, 900, 1⟩] := by
  refine ⟨?_, by decide, rfl⟩
  intro store qe k f ms rs hnd hr
  by_cases hreach : store.reachable
  case neg => simp [retrieve, hreach] at hr
  simp only [retrieve, hreach, if_pos, Except.ok.injEq] at hr
  subst hr
  have hsorted :
      List.Pairwise candLE
        ((List.insertionSort candLE
          (((store.chunks.filter f).map
            (fun c => (c, simScore qe c.embeddingVector))).filter
              (fun p => decide (ms ≤ p.2)))).take k) :=
    List.Pairwise.sublist (List.take_sublist k _)
      (List.sorted_insertionSort candLE _)
  have hmem : ∀ x ∈ (List.insertionSort candLE
      (((store.chunks.filter f).map
        (fun c => (c, simScore qe c.embeddingVector))).filter
          (fun p => decide (ms ≤ p.2)))).take k, x.1 ∈ store.chunks := by
    intro x hx
    have hx1 := List.mem_of_mem_take hx
    have hx2 := (List.perm_insertionSort candLE _).mem_iff.mp hx1
    have hx3 := List.mem_of_mem_filter hx2
    rcases List.mem_map.mp hx3 with ⟨c, hc, rfl⟩
    exact List.mem_of_mem_filter hc
  refine ⟨?_, ?_, ?_⟩
  · rw [withRanks_length]
    exact List.length_take_le k _
  · refine withRanks_pairwise (R := candLE) ?_ 0 _ hsorted
    intro i j p q hpq
    rcases hpq with h | ⟨h, _⟩
    · exact le_of_lt h
    · exact le_of_eq h.symm
  · have hpair :
        List.Pairwise
          (fun p q : Chunk × Int =>
            candLE p q ∧ p.1 ∈ store.chunks ∧ q.1 ∈ store.chunks)
          ((List.insertionSort candLE
            (((store.chunks.filter f).map
              (fun c => (c, simScore qe c.embeddingVector))).filter
                (fun p => decide (ms ≤ p.2)))).take k) := by
      refine List.Pairwise.imp_of_mem ?_ hsorted
      intro a b ha hb hab
      exact ⟨hab, hmem a ha, hmem b hb⟩
    refine withRanks_pairwise ?_ 0 _ hpair
    intro i j p q hpq hscore ca cb hca hcb
    rcases hpq with ⟨hpq, hp, hq⟩
    have e1 : some p.1 = some ca := (findChunk_self store.chunks p.1 hnd hp).symm.trans hca
    have e2 : some q.1 = some cb := (findChunk_self store.chunks q.1 hnd hq).symm.trans hcb
    injection e1 with e1
    injection e2 with e2
    subst e1
    subst e2
    rcases hpq with h | ⟨_, h⟩
    · exact absurd hscore (by simpa using ne_of_gt h)
    · exact h

theorem retriever_contract_witness :
    ([⟨3, 950, 0⟩, ⟨1, 900, 1⟩] : List RetrievalResult).length ≤ 2 :=
  (retriever_contract.1 abcStore [1] 2 (fun _ => true) 0
    [⟨3, 950, 0⟩, ⟨1, 900, 1⟩] (by decide) rfl).1

/-- Claim C10: the notebook's `retrieve_and_generate` request payload is a
pure function of exactly the user query text, the knowledge base id, and
the model ARN — equal inputs build the identical request — and its key set
is fixed, containing no `sessionId`, `sessionState`, or conversation
history field, so the client carries no conversation state between calls. -/
theorem notebook_request_stateless :
    ∀ (userQuery bedrockKbId modelArn userQuery2 bedrockKbId2 modelArn2 : String),
      userQuery = userQuery2 → bedrockKbId = bedrockKbId2 → modelArn = modelArn2 →
      retrieveAndGenerateRequest userQuery bedrockKbId modelArn =
        retrieveAndGenerateRequest userQuery2 bedrockKbId2 modelArn2 ∧
      keysOf (retrieveAndGenerateRequest userQuery bedrockKbId modelArn) =
        ["input", "text", "retrieveAndGenerateConfiguration", "type",
         "knowledgeBaseConfiguration", "knowledgeBaseId", "modelArn"] ∧
      "sessionId" ∉ keysOf (retrieveAndGenerateRequest userQuery bedrockKbId modelArn) ∧
      "sessionState" ∉ keysOf (retrieveAndGenerateRequest userQuery bedrockKbId modelArn) ∧
      "conversationHistory" ∉ keysOf (retrieveAndGenerateRequest userQuery bedrockKbId modelArn) := by
  intro q kb arn q2 kb2 arn2 h1 h2 h3
  subst h1; subst h2; subst h3
  have hk : keysOf (retrieveAndGenerateRequest q kb arn) =
      ["input", "text", "retrieveAndGenerateConfiguration", "type",
       "knowledgeBaseConfiguration", "knowledgeBaseId", "modelArn"] := by
    simp [retrieveAndGenerateRequest, keysOf, keysOfFields]
  refine ⟨rfl, hk, ?_, ?_, ?_⟩ <;> rw [hk] <;> decide

theorem notebook_request_stateless_witness :
    retrieveAndGenerateRequest "q" "kb" "arn" = retrieveAndGenerateRequest "q" "kb" "arn" :=
  (notebook_request_stateless "q" "kb" "arn" "q" "kb" "arn" rfl rfl rfl).1

end BedrockRag
